import Mathlib

/-!
Verification of the run-qemu-vm interactive console subsystem.

This file shallowly embeds the byte-level components of the repository
(the CSI preprocessor in pyte_preprocessor.py, the DEC Special Graphics
translator in acs_translator.py, the control-menu handling in console.py and
the exit-code control flow in process.py/console.py) as executable Lean
definitions, and proves or refutes the specified properties about them.
Bytes are modelled as Nat, byte strings as List Nat.
-/

namespace RunQemuVm

/-! Embedding of src/run_qemu_vm/pyte_preprocessor.py.

The preprocessor is a finite state machine over bytes with a scratch buffer,
parameterised by the pyte screen dimensions (screen.lines, screen.columns). -/

inductive PPState where
  | normal
  | escSeen
  | csiStarted
  | csiIntermediate
deriving DecidableEq, Repr

structure PP where
  state : PPState
  buffer : List Nat
deriving DecidableEq, Repr

/-- The state PytePreprocessor.__init__ and _reset_state establish. -/
def ppResetState : PP := ⟨PPState.normal, []⟩

def MAX_BUFFER_SIZE : Nat := 64

/-- CSI final byte test (0x40-0x7E), from _is_csi_final_byte. -/
def isCsiFinalByte (b : Nat) : Bool := 0x40 ≤ b && b ≤ 0x7E

/-- CSI intermediate byte test (0x20-0x2F), from _is_csi_intermediate_byte. -/
def isCsiIntermediateByte (b : Nat) : Bool := 0x20 ≤ b && b ≤ 0x2F

/-- CSI parameter byte test (0x30-0x3F), from _is_csi_parameter_byte. -/
def isCsiParameterByte (b : Nat) : Bool := 0x30 ≤ b && b ≤ 0x3F

def isDigitByte (b : Nat) : Bool := 0x30 ≤ b && b ≤ 0x39

/-- Decimal value of a digit-byte string, most significant digit first. -/
def digitsVal (l : List Nat) : Nat := l.foldl (fun a b => a * 10 + (b - 0x30)) 0

/-- Python int() applied to the decoded parameter bytes.  Python int() would
also strip whitespace, a sign and underscores, but none of those bytes are CSI
parameter bytes (0x30-0x3F), which is the only input this receives inside the
filter; bytes at or above 0x80 decode (ascii, errors replace) to the
replacement character, which is not a digit, so they fail here exactly as the
ValueError path does in the source. -/
def parsePyInt (s : List Nat) : Option Nat :=
  if s ≠ [] ∧ s.all isDigitByte then some (digitsVal s) else none

/-- Membership test for a byte in a byte string, the Python in operator. -/
def hasByte (x : Nat) : List Nat → Bool
  | [] => false
  | b :: rest => if b = x then true else hasByte x rest

/-- Python str.split(sep) on byte strings: every occurrence of the separator
splits, empty fields are kept, the empty string yields one empty field. -/
def pySplit (sep : Nat) : List Nat → List (List Nat)
  | [] => [[]]
  | b :: rest =>
    match pySplit sep rest with
    | [] => [[]]
    | cur :: parts => if b = sep then [] :: cur :: parts else (b :: cur) :: parts

/-- PytePreprocessor._parse_cursor_position: parse the bytes between ESC [ and
H as a cursor position.  A missing field defaults to 1; a non-integer field is
a parse failure (None); a semicolon with a field count other than two falls
through to the final return (1, 1). -/
def parseCursorPosition (params : List Nat) : Option (Nat × Nat) :=
  if hasByte 0x3b params then
    match pySplit 0x3b params with
    | [p1, p2] =>
      match (if p1 = [] then some 1 else parsePyInt p1),
            (if p2 = [] then some 1 else parsePyInt p2) with
      | some r, some c => some (r, c)
      | _, _ => none
    | _ => some (1, 1)
  else if params ≠ [] then
    match parsePyInt params with
    | some r => some (r, 1)
    | none => none
  else some (1, 1)

/-- PytePreprocessor._should_filter_cursor_position: filter when a parsed
coordinate exceeds the screen dimensions; a parse failure never filters. -/
def shouldFilterCursorPosition (lines cols : Nat) (params : List Nat) : Bool :=
  match parseCursorPosition params with
  | none => false
  | some (r, c) => lines < r || cols < c

/-- One iteration of the byte loop in PytePreprocessor.filter, before the
buffer-overflow check: the FSM transition for one input byte, returning the
updated state and the bytes this iteration appends to the output. -/
def ppFilterCore (lines cols : Nat) (p : PP) (b : Nat) : PP × List Nat :=
  match p.state with
  | PPState.normal =>
    if b = 0x1b then (⟨PPState.escSeen, p.buffer ++ [b]⟩, [])
    else (p, [b])
  | PPState.escSeen =>
    let buf := p.buffer ++ [b]
    if b = 0x5b then (⟨PPState.csiStarted, buf⟩, [])
    else (ppResetState, buf)
  | PPState.csiStarted =>
    let buf := p.buffer ++ [b]
    if isCsiIntermediateByte b then (⟨PPState.csiIntermediate, buf⟩, [])
    else if isCsiParameterByte b then (⟨PPState.csiStarted, buf⟩, [])
    else if isCsiFinalByte b then
      if b = 0x48 then
        let params := (buf.drop 2).dropLast
        if shouldFilterCursorPosition lines cols params then (ppResetState, [])
        else (ppResetState, buf)
      else (ppResetState, buf)
    else (ppResetState, buf)
  | PPState.csiIntermediate =>
    let buf := p.buffer ++ [b]
    if isCsiFinalByte b then (ppResetState, [])
    else if isCsiIntermediateByte b then (⟨PPState.csiIntermediate, buf⟩, [])
    else if isCsiParameterByte b then (⟨PPState.csiIntermediate, buf⟩, [])
    else (ppResetState, [])

/-- One iteration of the byte loop including the overflow check that follows
the state machine in the source: a buffer longer than MAX_BUFFER_SIZE is
discarded and the state reset. -/
def ppFilterByte (lines cols : Nat) (p : PP) (b : Nat) : PP × List Nat :=
  let r := ppFilterCore lines cols p b
  if MAX_BUFFER_SIZE < r.1.buffer.length then (ppResetState, r.2) else r

/-- PytePreprocessor.filter: run the loop over the whole chunk, concatenating
the per-byte output in order. -/
def ppFilter (lines cols : Nat) (p : PP) : List Nat → PP × List Nat
  | [] => (p, [])
  | b :: rest =>
    let r := ppFilterByte lines cols p b
    let r2 := ppFilter lines cols r.1 rest
    (r2.1, r.2 ++ r2.2)

/-- Successive calls of filter on a list of chunks, with the state carried
between calls and the outputs concatenated. -/
def ppFeed (lines cols : Nat) (p : PP) : List (List Nat) → PP × List Nat
  | [] => (p, [])
  | c :: cs =>
    let r := ppFilter lines cols p c
    let r2 := ppFeed lines cols r.1 cs
    (r2.1, r.2 ++ r2.2)

/-- The decimal digit bytes of n, least significant first, with enough fuel;
toDecAux n n is complete for every n. -/
def toDecAux : Nat → Nat → List Nat
  | 0, _ => []
  | fuel+1, n => if n = 0 then [] else (n % 10 + 0x30) :: toDecAux fuel (n / 10)

/-- Canonical decimal encoding of a natural number as ASCII digit bytes. -/
def encDec (n : Nat) : List Nat := if n = 0 then [0x30] else (toDecAux n n).reverse

/-- The byte string ESC [ row ; col H with both coordinates in decimal. -/
def cpSeq (row col : Nat) : List Nat :=
  [0x1b, 0x5b] ++ encDec row ++ [0x3b] ++ encDec col ++ [0x48]

/-! Embedding of src/run_qemu_vm/acs_translator.py.

The translator is a two-state machine over bytes with a 0-2 byte carry buffer
for a partial enter/exit sequence at a chunk boundary. -/

inductive AcsState where
  | normal
  | acsMode
deriving DecidableEq, Repr

/-- ESC ( 0, the DEC Special Graphics enter sequence. -/
def ACS_ENTER_SEQ : List Nat := [0x1b, 0x28, 0x30]

/-- ESC ( B, the DEC Special Graphics exit sequence. -/
def ACS_EXIT_SEQ : List Nat := [0x1b, 0x28, 0x42]

/-- The _acs_map built in ACSTranslator.__init__, as an association list from
ASCII byte value to the Unicode code point of its replacement character, in
source order. -/
def acsTable : List (Nat × Nat) := [
  (0x5f, 0xa0), (0x60, 0x25c6), (0x61, 0x2592), (0x62, 0x2409), (0x63, 0x240c),
  (0x64, 0x240d), (0x65, 0x240a), (0x66, 0xb0), (0x67, 0xb1), (0x68, 0x2424),
  (0x69, 0x240b), (0x6a, 0x2518), (0x6b, 0x2510), (0x6c, 0x250c), (0x6d, 0x2514),
  (0x6e, 0x253c), (0x6f, 0x23ba), (0x70, 0x23bb), (0x71, 0x2500), (0x72, 0x23bc),
  (0x73, 0x23bd), (0x74, 0x251c), (0x75, 0x2524), (0x76, 0x2534), (0x77, 0x252c),
  (0x78, 0x2502), (0x79, 0x2264), (0x7a, 0x2265), (0x7b, 0x3c0), (0x7c, 0x2260),
  (0x7d, 0xa3), (0x7e, 0xb7)]

/-- UTF-8 encoding of a code point below 0x10000 (every table entry is), as
str.encode with utf-8 produces for characters in that range. -/
def utf8Encode (c : Nat) : List Nat :=
  if c < 0x80 then [c]
  else if c < 0x800 then [0xc0 + c / 0x40, 0x80 + c % 0x40]
  else [0xe0 + c / 0x1000, 0x80 + c / 0x40 % 0x40, 0x80 + c % 0x40]

/-- Translation of one non-sequence byte in the loop of
ACSTranslator.translate: in ACS mode a byte with a table entry becomes the
UTF-8 encoding of its replacement, any other byte passes through. -/
def acsProcByte (st : AcsState) (b : Nat) : List Nat :=
  match st with
  | AcsState.acsMode =>
    match acsTable.lookup b with
    | some cp => utf8Encode cp
    | none => [b]
  | AcsState.normal => [b]

/-- Result of running the translate loop over a chunk: final mode, produced
output bytes, and the carry buffer left for the next call. -/
structure AcsRun where
  st : AcsState
  out : List Nat
  buf : List Nat
deriving DecidableEq, Repr

/-- The while loop of ACSTranslator.translate.  A lone ESC at the end of the
chunk is buffered; ESC ( at the end is buffered because it could begin an
enter/exit sequence; a complete enter/exit sequence switches the mode and is
consumed; an ESC not beginning one of those (nor a buffered tail) is passed to
acsProcByte like any other byte and the scan continues with the byte after it,
so ESC ( d with some other d yields the ESC and the parenthesis processed
singly and the scan resumed at d. -/
def acsGo : AcsState → List Nat → AcsRun
  | st, [] => ⟨st, [], []⟩
  | st, [0x1b] => ⟨st, [], [0x1b]⟩
  | st, [0x1b, 0x28] => ⟨st, [], [0x1b, 0x28]⟩
  | _, 0x1b :: 0x28 :: 0x30 :: r => acsGo AcsState.acsMode r
  | _, 0x1b :: 0x28 :: 0x42 :: r => acsGo AcsState.normal r
  | st, b :: rest =>
    let r1 := acsGo st rest
    ⟨r1.st, acsProcByte st b ++ r1.out, r1.buf⟩
termination_by _ l => l.length
decreasing_by all_goals (simp only [List.length_cons]; omega)

structure ACSTranslator where
  state : AcsState
  buffer : List Nat
deriving DecidableEq, Repr

/-- The state ACSTranslator.reset establishes (mode NORMAL, empty buffer). -/
def acsReset : ACSTranslator := ⟨AcsState.normal, []⟩

/-- ACSTranslator.translate on one chunk: prepend the carry buffer, run the
loop, store the new carry buffer.  The early return for empty data in the
source agrees with the loop on the empty list. -/
def translate (t : ACSTranslator) (input : List Nat) : ACSTranslator × List Nat :=
  let data := t.buffer ++ input
  let r := acsGo t.state data
  (⟨r.st, r.buf⟩, r.out)

/-- Successive translate calls on a list of chunks, outputs concatenated. -/
def translateFeed (t : ACSTranslator) : List (List Nat) → ACSTranslator × List Nat
  | [] => (t, [])
  | c :: cs =>
    let r := translate t c
    let r2 := translateFeed r.1 cs
    (r2.1, r.2 ++ r2.2)

/-- The expected translation of a run of bytes while in ACS mode: each byte
replaced by the UTF-8 encoding of its table entry, unmapped bytes kept. -/
def acsMapped (mid : List Nat) : List Nat :=
  (mid.map fun b =>
    match acsTable.lookup b with
    | some cp => utf8Encode cp
    | none => [b]).flatten

/-- The translator mode after k iterations of the translate loop, mirroring
the state updates of acsGo without the outputs; the iterations that buffer
and break cannot be followed by an exception, so they leave the state as is. -/
def acsGoState : AcsState → List Nat → Nat → AcsState
  | st, _, 0 => st
  | st, [], _ => st
  | st, b :: rest, k+1 =>
    if b = 0x1b then
      match rest with
      | [] => st
      | c :: rest2 =>
        if c = 0x28 then
          match rest2 with
          | [] => st
          | d :: r =>
            if d = 0x30 then acsGoState AcsState.acsMode r k
            else if d = 0x42 then acsGoState AcsState.normal r k
            else acsGoState st rest k
        else acsGoState st rest k
    else acsGoState st rest k

/-- Models ACSTranslator.translate when an internal exception is raised after
k iterations of the loop: the except handler returns data, which is the carry
buffer prepended to the input, and performs no reset; the mode keeps whatever
value the partial processing set, and the carry buffer is the empty value it
was given at the top of the call. -/
def translateExc (t : ACSTranslator) (input : List Nat) (k : Nat) :
    ACSTranslator × List Nat :=
  let data := t.buffer ++ input
  (⟨acsGoState t.state data k, []⟩, data)

/-- Whether pat occurs as a contiguous run somewhere in l (substring test). -/
def seqOccurs (pat : List Nat) : List Nat → Bool
  | [] => pat.isEmpty
  | b :: rest => pat.isPrefixOf (b :: rest) || seqOccurs pat rest

/-- Whether l ends with pat. -/
def endsWith (pat l : List Nat) : Bool :=
  decide (l.drop (l.length - pat.length) = pat)

/-! Embedding of the control-menu handling in src/run_qemu_vm/console.py and
the exit-code control flow in src/run_qemu_vm/process.py. -/

/-- The two console modes, MODE_SERIAL_CONSOLE and MODE_QEMU_MONITOR from
config.py. -/
inductive Mode where
  | serialConsole
  | qemuMonitor
deriving DecidableEq, Repr

/-- The three values the menu key bindings store in menu_state.result. -/
inductive MenuAction where
  | resume
  | monitor
  | quit
deriving DecidableEq, Repr

/-- ControlMenuState from console.py. -/
structure ControlMenuState where
  is_visible : Bool
  result : Option MenuAction
deriving DecidableEq, Repr

/-- The reactor-owned state the menu flow touches: the current_mode box, the
menu state, and whether app.exit was called. -/
structure ConsoleUi where
  mode : Mode
  menu : ControlMenuState
  exited : Bool
deriving DecidableEq, Repr

/-- _show_control_menu: makes the menu visible and clears any stale result
(the PTY-reader pause is not part of this state). -/
def showControlMenu (s : ConsoleUi) : ConsoleUi :=
  { s with menu := ⟨true, none⟩ }

/-- The menu key bindings (r, e, q while menu_is_active): store the action in
menu_state.result and hide the menu. -/
def menuKey (a : MenuAction) (s : ConsoleUi) : ConsoleUi :=
  if s.menu.is_visible then { s with menu := ⟨false, some a⟩ } else s

/-- _process_control_menu_result dispatching to _handle_quit_action,
_handle_monitor_action and _handle_resume_action: quit exits the app, monitor
sets current_mode to MODE_QEMU_MONITOR, resume sets current_mode to
MODE_SERIAL_CONSOLE unconditionally. -/
def processControlMenuResult (a : MenuAction) (s : ConsoleUi) : ConsoleUi :=
  match a with
  | MenuAction.quit => { s with exited := true }
  | MenuAction.monitor => { s with mode := Mode.qemuMonitor }
  | MenuAction.resume => { s with mode := Mode.serialConsole }

/-- One poll of the _menu_result_processor task: when the menu is hidden and
a result is pending, consume the result exactly once and process it. -/
def menuResultProcessorStep (s : ConsoleUi) : ConsoleUi :=
  match s.menu.is_visible, s.menu.result with
  | false, some a =>
    processControlMenuResult a { s with menu := { s.menu with result := none } }
  | _, _ => s

/-- The full flow of claim C2: from a hidden menu in pre-menu mode m, open the
control menu, press the resume key, and let the result processor act. -/
def resumeFlow (m : Mode) : ConsoleUi :=
  menuResultProcessorStep (menuKey MenuAction.resume
    (showControlMenu ⟨m, ⟨false, none⟩, false⟩))

/-- _connect_to_monitor: on failure it prints a warning and returns None; the
second component records that the warning was printed. -/
def connectToMonitor (available : Bool) : Option Unit × Bool :=
  if available then (some (), false) else (none, true)

/-- The return code computed by _manage_console_session: the except branch
sets 1, but the finally block unconditionally overwrites the return code with
the child returncode or 0, so a None or zero child code maps to 0. -/
def manageConsoleSessionRc (appError : Bool) (childRc : Option Int) : Int :=
  let _rcAfterTry : Int := if appError then 1 else 0
  let rcFinal : Int := childRc.getD 0
  rcFinal

/-- run_prompt_toolkit_console for a session that reached the application
loop: connect to the monitor (absence only warns), run the session, return
the session return code together with the warning flag. -/
def runPromptToolkitConsole (monitorAvail appError : Bool) (childRc : Option Int) :
    Int × Bool :=
  let c := connectToMonitor monitorAvail
  (manageConsoleSessionRc appError childRc, c.2)

/-- The control flow of process.run_qemu in text-console mode: exit 1 when no
PTY device is found within the 10 second wait, 130 when a KeyboardInterrupt
arrives during the console session, and otherwise the session return code. -/
def runQemuText (ptyFound interrupted monitorAvail appError : Bool)
    (childRc : Option Int) : Int :=
  if ptyFound = false then 1
  else if interrupted then 130
  else (runPromptToolkitConsole monitorAvail appError childRc).1

/-! Helper lemmas about the preprocessor machine. -/

theorem isCsiParameterByte_iff (b : Nat) :
    isCsiParameterByte b = true ↔ 0x30 ≤ b ∧ b ≤ 0x3f := by
  simp [isCsiParameterByte]

theorem isCsiIntermediateByte_iff (b : Nat) :
    isCsiIntermediateByte b = true ↔ 0x20 ≤ b ∧ b ≤ 0x2f := by
  simp [isCsiIntermediateByte]

theorem isCsiFinalByte_iff (b : Nat) :
    isCsiFinalByte b = true ↔ 0x40 ≤ b ∧ b ≤ 0x7e := by
  simp [isCsiFinalByte]

theorem ppFilter_append (lines cols : Nat) (a : List Nat) :
    ∀ (p : PP) (b : List Nat),
      ppFilter lines cols p (a ++ b) =
        ((ppFilter lines cols (ppFilter lines cols p a).1 b).1,
          (ppFilter lines cols p a).2 ++
            (ppFilter lines cols (ppFilter lines cols p a).1 b).2) := by
  induction a with
  | nil => intro p b; simp [ppFilter]
  | cons x xs ih => intro p b; simp [ppFilter, ih]

theorem ppFeed_eq_flatten (lines cols : Nat) (cs : List (List Nat)) :
    ∀ p : PP, ppFeed lines cols p cs = ppFilter lines cols p cs.flatten := by
  induction cs with
  | nil => intro p; simp [ppFeed, ppFilter]
  | cons c cs ih => intro p; simp [ppFeed, ih, List.flatten_cons, ppFilter_append]

theorem ppFilterByte_buffer_le (lines cols : Nat) (p : PP) (b : Nat) :
    ((ppFilterByte lines cols p b).1).buffer.length ≤ MAX_BUFFER_SIZE := by
  dsimp only [ppFilterByte]
  split
  · simp [ppResetState]
  · omega

theorem ppFilter_buffer_le (lines cols : Nat) (data : List Nat) :
    ∀ p : PP, p.buffer.length ≤ MAX_BUFFER_SIZE →
      ((ppFilter lines cols p data).1).buffer.length ≤ MAX_BUFFER_SIZE := by
  induction data with
  | nil => intro p h; simpa [ppFilter] using h
  | cons x xs ih =>
    intro p h
    simp only [ppFilter]
    exact ih _ (ppFilterByte_buffer_le lines cols p x)

theorem ppFeed_buffer_le (lines cols : Nat) (cs : List (List Nat)) :
    ∀ p : PP, p.buffer.length ≤ MAX_BUFFER_SIZE →
      ((ppFeed lines cols p cs).1).buffer.length ≤ MAX_BUFFER_SIZE := by
  intro p h
  rw [ppFeed_eq_flatten]
  exact ppFilter_buffer_le lines cols cs.flatten p h

theorem ppFilterCore_overflow_out (lines cols : Nat) (p : PP) (b : Nat)
    (hp : p.buffer.length ≤ MAX_BUFFER_SIZE)
    (hov : MAX_BUFFER_SIZE < ((ppFilterCore lines cols p b).1).buffer.length) :
    (ppFilterCore lines cols p b).2 = [] := by
  obtain ⟨st, buf⟩ := p
  simp only [MAX_BUFFER_SIZE] at hp hov
  cases st
  case normal =>
    by_cases hb : b = 0x1b
    · simp [ppFilterCore, hb]
    · exfalso; simp [ppFilterCore, hb] at hov; omega
  case escSeen =>
    by_cases hb : b = 0x5b
    · simp [ppFilterCore, hb]
    · exfalso; simp [ppFilterCore, hb, ppResetState] at hov
  case csiStarted =>
    cases h1 : isCsiIntermediateByte b
    case true => simp [ppFilterCore, h1]
    case false =>
    cases h2 : isCsiParameterByte b
    case true => simp [ppFilterCore, h1, h2]
    case false =>
    exfalso
    cases h3 : isCsiFinalByte b
    case false => simp [ppFilterCore, h1, h2, h3, ppResetState] at hov
    case true =>
    by_cases h4 : b = 0x48
    · subst h4
      simp only [ppFilterCore, h1, h2, h3] at hov
      repeat' split at hov
      all_goals simp_all [ppResetState]
    · simp [ppFilterCore, h1, h2, h3, h4, ppResetState] at hov
  case csiIntermediate =>
    cases h3 : isCsiFinalByte b
    case true => simp [ppFilterCore, h3]
    case false =>
    cases h1 : isCsiIntermediateByte b
    case true => simp [ppFilterCore, h3, h1]
    case false =>
    cases h2 : isCsiParameterByte b
    case true => simp [ppFilterCore, h3, h1, h2]
    case false => simp [ppFilterCore, h3, h1, h2]

theorem ppFilterByte_overflow (lines cols : Nat) (p : PP) (b : Nat)
    (hp : p.buffer.length ≤ MAX_BUFFER_SIZE)
    (hov : MAX_BUFFER_SIZE < ((ppFilterCore lines cols p b).1).buffer.length) :
    ppFilterByte lines cols p b = (ppResetState, []) := by
  have h2 := ppFilterCore_overflow_out lines cols p b hp hov
  simp [ppFilterByte, hov, h2]

/-! Lemmas about decimal encoding and cursor-position parsing. -/

theorem toDecAux_all_digits (fuel : Nat) :
    ∀ n : Nat, (toDecAux fuel n).all isDigitByte = true := by
  induction fuel with
  | zero => intro n; rfl
  | succ fuel ih =>
    intro n
    by_cases hn : n = 0
    · simp [toDecAux, hn]
    · have h10 : n % 10 < 10 := Nat.mod_lt _ (by omega)
      simp [toDecAux, hn, ih, isDigitByte]
      omega

theorem toDecAux_foldl (fuel : Nat) :
    ∀ n acc : Nat, n ≤ fuel →
      ((toDecAux fuel n).reverse).foldl (fun a b => a * 10 + (b - 0x30)) acc =
        acc * 10 ^ (toDecAux fuel n).length + n := by
  induction fuel with
  | zero =>
    intro n acc hn
    have : n = 0 := by omega
    simp [toDecAux, this]
  | succ fuel ih =>
    intro n acc hn
    by_cases h0 : n = 0
    · simp [toDecAux, h0]
    · have hdiv : n / 10 ≤ fuel := by
        have := Nat.div_lt_self (Nat.pos_of_ne_zero h0) (by norm_num : (1:Nat) < 10)
        omega
      simp only [toDecAux, h0, if_false, if_neg, List.reverse_cons, List.foldl_append,
        List.foldl_cons, List.foldl_nil, List.length_cons]
      rw [ih (n / 10) acc hdiv]
      have hmod : n % 10 + 0x30 - 0x30 = n % 10 := by omega
      rw [hmod]
      calc (acc * 10 ^ (toDecAux fuel (n / 10)).length + n / 10) * 10 + n % 10
          = acc * (10 ^ (toDecAux fuel (n / 10)).length * 10) +
              (10 * (n / 10) + n % 10) := by ring
        _ = acc * 10 ^ ((toDecAux fuel (n / 10)).length + 1) + n := by
              rw [← pow_succ, Nat.div_add_mod]

theorem digitsVal_encDec (n : Nat) : digitsVal (encDec n) = n := by
  by_cases h0 : n = 0
  · simp [encDec, h0, digitsVal]
  · unfold encDec digitsVal
    rw [if_neg h0, toDecAux_foldl n n 0 le_rfl]
    simp

theorem encDec_ne_nil (n : Nat) : encDec n ≠ [] := by
  by_cases h0 : n = 0
  · simp [encDec, h0]
  · obtain ⟨m, rfl⟩ := Nat.exists_eq_succ_of_ne_zero h0
    simp [encDec, toDecAux]

theorem encDec_all_digits (n : Nat) : (encDec n).all isDigitByte = true := by
  by_cases h0 : n = 0
  · simp [encDec, h0, isDigitByte]
  · unfold encDec
    rw [if_neg h0, List.all_reverse]
    exact toDecAux_all_digits n n

theorem parsePyInt_encDec (n : Nat) : parsePyInt (encDec n) = some n := by
  unfold parsePyInt
  rw [if_pos ⟨encDec_ne_nil n, encDec_all_digits n⟩, digitsVal_encDec]

theorem hasByte_append_cons (x : Nat) (a b : List Nat) :
    hasByte x (a ++ x :: b) = true := by
  induction a with
  | nil => simp [hasByte]
  | cons y ys ih =>
    by_cases hy : y = x
    · simp [hasByte, hy]
    · simp [hasByte, hy, ih]

theorem hasByte_eq_false (x : Nat) (l : List Nat) (h : ∀ b ∈ l, b ≠ x) :
    hasByte x l = false := by
  induction l with
  | nil => rfl
  | cons y ys ih =>
    have hy : y ≠ x := h y (by simp)
    simp only [hasByte, if_neg hy]
    exact ih fun b hb => h b (by simp [hb])

theorem hasByte_semi_of_digits (l : List Nat) (h : l.all isDigitByte = true) :
    hasByte 0x3b l = false := by
  apply hasByte_eq_false
  intro b hb
  rw [List.all_eq_true] at h
  have hd := h b hb
  simp [isDigitByte] at hd
  omega

theorem pySplit_ne_nil (sep : Nat) (l : List Nat) : pySplit sep l ≠ [] := by
  cases l with
  | nil => simp [pySplit]
  | cons b rest =>
    cases h : pySplit sep rest with
    | nil => simp [pySplit, h]
    | cons cur parts => simp [pySplit, h]; split <;> simp

theorem pySplit_no_sep (sep : Nat) (l : List Nat) (h : hasByte sep l = false) :
    pySplit sep l = [l] := by
  induction l with
  | nil => rfl
  | cons b rest ih =>
    simp only [hasByte] at h
    by_cases hb : b = sep
    · rw [if_pos hb] at h; cases h
    · rw [if_neg hb] at h
      simp [pySplit, ih h, hb]

theorem pySplit_sep (sep : Nat) (a b : List Nat) (ha : hasByte sep a = false) :
    pySplit sep (a ++ sep :: b) = a :: pySplit sep b := by
  induction a with
  | nil =>
    cases h : pySplit sep b with
    | nil => exact absurd h (pySplit_ne_nil sep b)
    | cons cur parts => simp [pySplit, h]
  | cons y ys ih =>
    simp only [hasByte] at ha
    by_cases hy : y = sep
    · rw [if_pos hy] at ha; cases ha
    · rw [if_neg hy] at ha
      simp only [List.cons_append, pySplit, List.append_eq]
      rw [ih ha]
      simp [hy]

theorem parseCursorPosition_rc (row col : Nat) :
    parseCursorPosition (encDec row ++ 0x3b :: encDec col) = some (row, col) := by
  unfold parseCursorPosition
  rw [if_pos (by rw [hasByte_append_cons])]
  rw [pySplit_sep _ _ _ (hasByte_semi_of_digits _ (encDec_all_digits row)),
    pySplit_no_sep _ _ (hasByte_semi_of_digits _ (encDec_all_digits col))]
  simp only [if_neg (encDec_ne_nil row), if_neg (encDec_ne_nil col),
    parsePyInt_encDec]

/-! Run lemmas for the preprocessor state machine. -/

theorem ppFilterByte_param (lines cols : Nat) (buf : List Nat) (b : Nat)
    (hb : isCsiParameterByte b = true) (hlen : buf.length + 1 ≤ MAX_BUFFER_SIZE) :
    ppFilterByte lines cols ⟨PPState.csiStarted, buf⟩ b =
      (⟨PPState.csiStarted, buf ++ [b]⟩, []) := by
  have h1 : isCsiIntermediateByte b = false := by
    rw [isCsiParameterByte_iff] at hb
    simp [isCsiIntermediateByte]; omega
  have hcore : ppFilterCore lines cols ⟨PPState.csiStarted, buf⟩ b =
      (⟨PPState.csiStarted, buf ++ [b]⟩, []) := by
    simp [ppFilterCore, h1, hb]
  simp only [ppFilterByte, hcore]
  rw [if_neg (by simp [MAX_BUFFER_SIZE] at hlen ⊢; omega)]

theorem ppFilter_paramRun (lines cols : Nat) (ps : List Nat) :
    ∀ buf : List Nat, ps.all isCsiParameterByte = true →
      buf.length + ps.length ≤ MAX_BUFFER_SIZE →
      ppFilter lines cols ⟨PPState.csiStarted, buf⟩ ps =
        (⟨PPState.csiStarted, buf ++ ps⟩, []) := by
  induction ps with
  | nil => intro buf _ _; simp [ppFilter]
  | cons b bs ih =>
    intro buf hall hlen
    simp only [List.all_cons, Bool.and_eq_true] at hall
    simp only [List.length_cons] at hlen
    simp only [ppFilter]
    rw [ppFilterByte_param lines cols buf b hall.1 (by omega)]
    rw [ih (buf ++ [b]) hall.2 (by simp; omega)]
    simp

theorem ppFilterByte_intermediate_fromStarted (lines cols : Nat) (buf : List Nat)
    (b : Nat) (hb : isCsiIntermediateByte b = true)
    (hlen : buf.length + 1 ≤ MAX_BUFFER_SIZE) :
    ppFilterByte lines cols ⟨PPState.csiStarted, buf⟩ b =
      (⟨PPState.csiIntermediate, buf ++ [b]⟩, []) := by
  have hcore : ppFilterCore lines cols ⟨PPState.csiStarted, buf⟩ b =
      (⟨PPState.csiIntermediate, buf ++ [b]⟩, []) := by
    simp [ppFilterCore, hb]
  simp only [ppFilterByte, hcore]
  rw [if_neg (by simp [MAX_BUFFER_SIZE] at hlen ⊢; omega)]

theorem ppFilterByte_intermediate_stay (lines cols : Nat) (buf : List Nat)
    (b : Nat) (hb : isCsiIntermediateByte b = true)
    (hlen : buf.length + 1 ≤ MAX_BUFFER_SIZE) :
    ppFilterByte lines cols ⟨PPState.csiIntermediate, buf⟩ b =
      (⟨PPState.csiIntermediate, buf ++ [b]⟩, []) := by
  have hf : isCsiFinalByte b = false := by
    rw [isCsiIntermediateByte_iff] at hb
    simp [isCsiFinalByte]; omega
  have hcore : ppFilterCore lines cols ⟨PPState.csiIntermediate, buf⟩ b =
      (⟨PPState.csiIntermediate, buf ++ [b]⟩, []) := by
    simp [ppFilterCore, hf, hb]
  simp only [ppFilterByte, hcore]
  rw [if_neg (by simp [MAX_BUFFER_SIZE] at hlen ⊢; omega)]

theorem ppFilter_intermediateRun (lines cols : Nat) (ms : List Nat) :
    ∀ buf : List Nat, ms.all isCsiIntermediateByte = true →
      buf.length + ms.length ≤ MAX_BUFFER_SIZE →
      ppFilter lines cols ⟨PPState.csiIntermediate, buf⟩ ms =
        (⟨PPState.csiIntermediate, buf ++ ms⟩, []) := by
  induction ms with
  | nil => intro buf _ _; simp [ppFilter]
  | cons b bs ih =>
    intro buf hall hlen
    simp only [List.all_cons, Bool.and_eq_true] at hall
    simp only [List.length_cons] at hlen
    simp only [ppFilter]
    rw [ppFilterByte_intermediate_stay lines cols buf b hall.1 (by omega)]
    rw [ih (buf ++ [b]) hall.2 (by simp; omega)]
    simp

theorem ppFilterByte_final_fromIntermediate (lines cols : Nat) (buf : List Nat)
    (f : Nat) (hf : isCsiFinalByte f = true) :
    ppFilterByte lines cols ⟨PPState.csiIntermediate, buf⟩ f =
      (ppResetState, []) := by
  have hcore : ppFilterCore lines cols ⟨PPState.csiIntermediate, buf⟩ f =
      (ppResetState, []) := by
    simp [ppFilterCore, hf]
  simp [ppFilterByte, hcore, ppResetState]

theorem ppFilterByte_H (lines cols : Nat) (buf : List Nat) :
    ppFilterByte lines cols ⟨PPState.csiStarted, buf⟩ 0x48 =
      if shouldFilterCursorPosition lines cols ((buf ++ [0x48]).drop 2).dropLast
        then (ppResetState, [])
        else (ppResetState, buf ++ [0x48]) := by
  have hcore : ppFilterCore lines cols ⟨PPState.csiStarted, buf⟩ 0x48 =
      if shouldFilterCursorPosition lines cols ((buf ++ [0x48]).drop 2).dropLast
        then (ppResetState, [])
        else (ppResetState, buf ++ [0x48]) := by
    simp [ppFilterCore, isCsiIntermediateByte, isCsiParameterByte, isCsiFinalByte]
  simp only [ppFilterByte, hcore]
  split <;> simp [ppResetState]

theorem ppFilter_start (lines cols : Nat) (rest : List Nat) :
    ppFilter lines cols ppResetState (0x1b :: 0x5b :: rest) =
      ppFilter lines cols ⟨PPState.csiStarted, [0x1b, 0x5b]⟩ rest := by
  simp [ppFilter, ppFilterByte, ppFilterCore, ppResetState, MAX_BUFFER_SIZE]

theorem all_param_of_digits (l : List Nat) (h : l.all isDigitByte = true) :
    l.all isCsiParameterByte = true := by
  rw [List.all_eq_true] at h ⊢
  intro b hb
  have hd := h b hb
  simp [isDigitByte] at hd
  simp [isCsiParameterByte]; omega

theorem ppFilter_H_pipeline (lines cols : Nat) (ps : List Nat)
    (hps : ps.all isCsiParameterByte = true) (hlen : ps.length ≤ 62) :
    ppFilter lines cols ppResetState ([0x1b, 0x5b] ++ ps ++ [0x48]) =
      (ppResetState,
        if shouldFilterCursorPosition lines cols ps then []
        else [0x1b, 0x5b] ++ ps ++ [0x48]) := by
  have hshape : [0x1b, 0x5b] ++ ps ++ [0x48] = 0x1b :: 0x5b :: (ps ++ [0x48]) := by
    simp
  rw [hshape, ppFilter_start, ppFilter_append]
  rw [ppFilter_paramRun lines cols ps [0x1b, 0x5b] hps
    (by simp [MAX_BUFFER_SIZE]; omega)]
  dsimp only
  simp only [ppFilter]
  rw [ppFilterByte_H]
  have hdrop : (((([0x1b, 0x5b] : List Nat) ++ ps) ++ [0x48]).drop 2).dropLast = ps := by
    simp
  rw [hdrop]
  split <;> simp_all

theorem shouldFilter_rc (lines cols row col : Nat) :
    shouldFilterCursorPosition lines cols (encDec row ++ 0x3b :: encDec col) =
      (decide (lines < row) || decide (cols < col)) := by
  simp [shouldFilterCursorPosition, parseCursorPosition_rc]

theorem parseCursorPosition_manyFields (ps : List Nat)
    (h3 : 3 ≤ (pySplit 0x3b ps).length) : parseCursorPosition ps = some (1, 1) := by
  have hsemi : hasByte 0x3b ps = true := by
    cases hcontra : hasByte 0x3b ps
    · rw [pySplit_no_sep _ _ hcontra] at h3
      simp at h3
    · rfl
  unfold parseCursorPosition
  rw [if_pos hsemi]
  cases h : pySplit 0x3b ps with
  | nil => exact absurd h (pySplit_ne_nil _ _)
  | cons a t =>
    cases t with
    | nil => rfl
    | cons a2 t2 =>
      cases t2 with
      | nil =>
        rw [h] at h3
        simp at h3
      | cons a3 t3 => rfl

theorem ppFilter_normal_plain (lines cols : Nat) (s : List Nat) :
    ∀ buf : List Nat, (∀ b ∈ s, b ≠ 0x1b) →
      (ppFilter lines cols ⟨PPState.normal, buf⟩ s).2 = s ∧
      ((ppFilter lines cols ⟨PPState.normal, buf⟩ s).1).state = PPState.normal := by
  induction s with
  | nil => intro buf _; simp [ppFilter]
  | cons b bs ih =>
    intro buf h
    have hb : b ≠ 0x1b := h b (by simp)
    have hbs : ∀ x ∈ bs, x ≠ 0x1b := fun x hx => h x (by simp [hx])
    have hcore : ppFilterCore lines cols ⟨PPState.normal, buf⟩ b =
        (⟨PPState.normal, buf⟩, [b]) := by
      simp [ppFilterCore, hb]
    by_cases hov : MAX_BUFFER_SIZE < buf.length
    · have hstep : ppFilterByte lines cols ⟨PPState.normal, buf⟩ b =
          (⟨PPState.normal, []⟩, [b]) := by
        simp [ppFilterByte, hcore, hov, ppResetState]
      simp only [ppFilter, hstep]
      exact ⟨by simp [(ih [] hbs).1], (ih [] hbs).2⟩
    · have hstep : ppFilterByte lines cols ⟨PPState.normal, buf⟩ b =
          (⟨PPState.normal, buf⟩, [b]) := by
        simp [ppFilterByte, hcore, hov]
      simp only [ppFilter, hstep]
      exact ⟨by simp [(ih buf hbs).1], (ih buf hbs).2⟩

/-- C7 (amended): the preprocessor filter is the identity on chunks without an
ESC byte when it is called in the Normal state, with any buffer content; in a
non-Normal state, earlier buffered bytes can be flushed into the output or
ESC-free input can be withheld, so the unamended for-every-state claim fails. -/
theorem C7_amended (lines cols : Nat) (buf s : List Nat)
    (h : ∀ b ∈ s, b ≠ 0x1b) :
    (ppFilter lines cols ⟨PPState.normal, buf⟩ s).2 = s :=
  (ppFilter_normal_plain lines cols s buf h).1

/-- C7 witness: a concrete ESC-free chunk passes through unchanged from the
Normal state. -/
theorem C7_witness :
    (ppFilter 24 80 ⟨PPState.normal, []⟩ [0x68, 0x69]).2 = [0x68, 0x69] :=
  C7_amended 24 80 [] [0x68, 0x69] (by decide)

/-- C7 counterexample: called in the EscSeen state (reached by a previous
chunk ending in ESC), the filter prepends the buffered ESC to an ESC-free
chunk, so the output differs from the input, refuting the claim for every
preprocessor state. -/
theorem C7_counterexample :
    (ppFilter 24 80 ppResetState [0x1b]).1 = ⟨PPState.escSeen, [0x1b]⟩ ∧
    (ppFilter 24 80 ⟨PPState.escSeen, [0x1b]⟩ [0x61]).2 = [0x1b, 0x61] ∧
    [0x1b, 0x61] ≠ [0x61] := by
  refine ⟨by decide, by decide, by decide⟩

/-- C9: the scratch buffer length never exceeds MAX_BUFFER_SIZE = 64 after any
sequence of filter calls from the initial state, and when a byte would leave
the buffer above the bound without completing a sequence, that byte's step
discards the buffer, emits nothing, and returns the machine to Normal. -/
theorem C9_invariant :
    (∀ (lines cols : Nat) (chunks : List (List Nat)),
      ((ppFeed lines cols ppResetState chunks).1).buffer.length ≤ MAX_BUFFER_SIZE) ∧
    (∀ (lines cols : Nat) (p : PP) (b : Nat),
      p.buffer.length ≤ MAX_BUFFER_SIZE →
      MAX_BUFFER_SIZE < ((ppFilterCore lines cols p b).1).buffer.length →
      ppFilterByte lines cols p b = (ppResetState, [])) :=
  ⟨fun lines cols chunks =>
    ppFeed_buffer_le lines cols chunks ppResetState (by simp [ppResetState]),
   fun lines cols p b hp hov => ppFilterByte_overflow lines cols p b hp hov⟩

/-- C9 witness: a 64-byte pending CSI buffer that receives one more parameter
byte is discarded with no output, and a concrete two-call feed ends under the
bound. -/
theorem C9_witness :
    ppFilterByte 24 80
        ⟨PPState.csiStarted, 0x1b :: 0x5b :: List.replicate 62 0x30⟩ 0x30 =
      (ppResetState, []) ∧
    ((ppFeed 24 80 ppResetState
        [[0x1b, 0x5b], List.replicate 100 0x31]).1).buffer.length ≤
      MAX_BUFFER_SIZE :=
  ⟨C9_invariant.2 24 80 _ 0x30 (by decide) (by decide), C9_invariant.1 24 80 _⟩

/-- C3 (amended): feeding chunks one at a time always equals feeding their
concatenation, for arbitrary input and state; and a complete CSI sequence
with at least one intermediate byte produces no output, provided it fits the
64-byte scratch buffer (parameter plus intermediate bytes at most 62, whole
sequence at most 65 bytes); a longer such sequence overflows the buffer and
leaks its tail, refuting the unamended length-unbounded claim. -/
theorem C3_amended :
    (∀ (lines cols : Nat) (p : PP) (chunks : List (List Nat)),
      ppFeed lines cols p chunks = ppFilter lines cols p chunks.flatten) ∧
    (∀ (lines cols : Nat) (ps mids : List Nat) (f : Nat),
      ps.all isCsiParameterByte = true →
      mids.all isCsiIntermediateByte = true →
      mids ≠ [] →
      isCsiFinalByte f = true →
      ps.length + mids.length ≤ 62 →
      ppFilter lines cols ppResetState ([0x1b, 0x5b] ++ ps ++ mids ++ [f]) =
        (ppResetState, [])) := by
  constructor
  · intro lines cols p chunks
    exact ppFeed_eq_flatten lines cols chunks p
  · intro lines cols ps mids f hps hmids hne hf hlen
    obtain ⟨m, ms, rfl⟩ : ∃ m ms, mids = m :: ms := by
      cases mids with
      | nil => exact absurd rfl hne
      | cons m ms => exact ⟨m, ms, rfl⟩
    simp only [List.all_cons, Bool.and_eq_true] at hmids
    simp only [List.length_cons] at hlen
    have hshape : ([0x1b, 0x5b] ++ ps ++ (m :: ms) ++ [f] : List Nat) =
        0x1b :: 0x5b :: (ps ++ (m :: (ms ++ [f]))) := by simp
    rw [hshape, ppFilter_start, ppFilter_append]
    rw [ppFilter_paramRun lines cols ps [0x1b, 0x5b] hps
      (by simp [MAX_BUFFER_SIZE]; omega)]
    dsimp only
    simp only [ppFilter]
    rw [ppFilterByte_intermediate_fromStarted lines cols _ m hmids.1
      (by simp [MAX_BUFFER_SIZE]; omega)]
    dsimp only
    rw [ppFilter_append]
    rw [ppFilter_intermediateRun lines cols ms _ hmids.2
      (by simp [MAX_BUFFER_SIZE]; omega)]
    dsimp only
    simp only [ppFilter]
    rw [ppFilterByte_final_fromIntermediate lines cols _ f hf]
    simp

/-- C3 witness: the chunked feed of a split DECSTR-like sequence equals the
whole-input filter, and a short CSI sequence with an intermediate byte yields
no output. -/
theorem C3_witness :
    ppFeed 24 80 ppResetState [[0x1b], [0x5b, 0x21], [0x70]] =
      ppFilter 24 80 ppResetState
        (([[0x1b], [0x5b, 0x21], [0x70]] : List (List Nat)).flatten) ∧
    ppFilter 24 80 ppResetState ([0x1b, 0x5b] ++ [0x31] ++ [0x20] ++ [0x70]) =
      (ppResetState, []) :=
  ⟨C3_amended.1 24 80 ppResetState [[0x1b], [0x5b, 0x21], [0x70]],
   C3_amended.2 24 80 [0x31] [0x20] 0x70 (by decide) (by decide) (by decide)
     (by decide) (by decide)⟩

/-- C3 counterexample: a complete CSI sequence of 66 bytes whose intermediate
bytes exceed the scratch buffer is not removed whole: the final byte leaks to
the output, refuting the claim for unbounded sequence length. -/
theorem C3_counterexample :
    ((List.replicate 63 0x20).all isCsiIntermediateByte = true) ∧
    isCsiFinalByte 0x70 = true ∧
    (ppFilter 24 80 ppResetState
      ([0x1b, 0x5b] ++ List.replicate 63 0x20 ++ [0x70])).2 = [0x70] ∧
    ([0x70] : List Nat) ≠ [] := by
  refine ⟨by decide, by decide, by decide, by decide⟩

/-- C1 (amended): a cursor-position sequence ESC [ row ; col H whose decimal
parameter text fits the scratch buffer (digits of row plus digits of col at
most 61 bytes, whole sequence at most 65) is dropped exactly when row exceeds
the configured line count or col exceeds the column count, and otherwise
passes through byte-for-byte; a longer sequence overflows the 64-byte buffer
and is truncated instead, refuting the unamended for-all-row-col claim. -/
theorem C1_amended (lines cols row col : Nat)
    (hlen : (encDec row).length + (encDec col).length ≤ 61) :
    ((ppFilter lines cols ppResetState (cpSeq row col)).2 = [] ↔
      (lines < row ∨ cols < col)) ∧
    (¬(lines < row ∨ cols < col) →
      (ppFilter lines cols ppResetState (cpSeq row col)).2 = cpSeq row col) ∧
    (ppFilter lines cols ppResetState (cpSeq row col)).1 = ppResetState := by
  have hps : (encDec row ++ 0x3b :: encDec col).all isCsiParameterByte = true := by
    simp [List.all_append, List.all_cons,
      all_param_of_digits _ (encDec_all_digits row),
      all_param_of_digits _ (encDec_all_digits col), isCsiParameterByte]
  have hlen2 : (encDec row ++ 0x3b :: encDec col).length ≤ 62 := by
    simp; omega
  have hcp : cpSeq row col =
      [0x1b, 0x5b] ++ (encDec row ++ 0x3b :: encDec col) ++ [0x48] := by
    simp [cpSeq]
  rw [hcp, ppFilter_H_pipeline lines cols _ hps hlen2, shouldFilter_rc]
  by_cases hcond : lines < row ∨ cols < col
  · have hb : (decide (lines < row) || decide (cols < col)) = true := by
      rcases hcond with h | h <;> simp [h]
    rw [hb]
    refine ⟨by simp [hcond], fun hc => absurd hcond hc, rfl⟩
  · have hb : (decide (lines < row) || decide (cols < col)) = false := by
      push_neg at hcond
      simp [hcond.1, hcond.2]
    rw [hb]
    refine ⟨by simp [hcond], fun _ => by simp, rfl⟩

/-- C1 witness: on a 24 by 80 screen, ESC [ 5 ; 300 H exceeds the column
count and is dropped. -/
theorem C1_witness :
    (encDec 5).length + (encDec 300).length ≤ 61 ∧
    (ppFilter 24 80 ppResetState (cpSeq 5 300)).2 = [] :=
  ⟨by decide, (C1_amended 24 80 5 300 (by decide)).1.mpr (Or.inr (by decide))⟩

set_option maxRecDepth 100000 in
/-- C1 counterexample: with row of 63 decimal digits the pending sequence
overflows the 64-byte scratch buffer, so even though row and col do not
exceed the (huge) screen dimensions, the sequence is neither passed through
unchanged nor dropped: its tail leaks to the output. -/
theorem C1_counterexample :
    (ppFilter (10 ^ 63) (10 ^ 63) ppResetState (cpSeq (10 ^ 62) 1)).2 =
      [0x3b, 0x31, 0x48] ∧
    ¬(10 ^ 63 < 10 ^ 62 ∨ (10 ^ 63 : Nat) < 1) ∧
    ([0x3b, 0x31, 0x48] : List Nat) ≠ cpSeq (10 ^ 62) 1 ∧
    ([0x3b, 0x31, 0x48] : List Nat) ≠ [] := by
  refine ⟨by decide, by norm_num, by decide, by decide⟩

/-- C10 (amended): a CSI sequence of parameter bytes ending in H, fitting the
scratch buffer (at most 62 parameter bytes), passes through unchanged both
when its parameters fail to parse (fail open on None) and when they split
into three or more semicolon fields, in which case the code parses them as
the benign position (1, 1), provided the screen has at least one line and one
column; with a zero-dimension screen the (1, 1) case is dropped, and an
over-long unparseable sequence is truncated by the buffer bound, so the
unamended claim fails. -/
theorem C10_amended (lines cols : Nat) (ps : List Nat)
    (hps : ps.all isCsiParameterByte = true)
    (hlen : ps.length ≤ 62)
    (hcase : parseCursorPosition ps = none ∨
      (3 ≤ (pySplit 0x3b ps).length ∧ 1 ≤ lines ∧ 1 ≤ cols)) :
    ppFilter lines cols ppResetState ([0x1b, 0x5b] ++ ps ++ [0x48]) =
      (ppResetState, [0x1b, 0x5b] ++ ps ++ [0x48]) := by
  have hsf : shouldFilterCursorPosition lines cols ps = false := by
    rcases hcase with hnone | ⟨h3, hl, hc⟩
    · simp [shouldFilterCursorPosition, hnone]
    · rw [shouldFilterCursorPosition, parseCursorPosition_manyFields ps h3]
      simp
      omega
  rw [ppFilter_H_pipeline lines cols ps hps hlen, hsf]
  simp

/-- C10 witness: ESC [ ? 2 5 H has unparseable parameters and passes through
unchanged on a 24 by 80 screen. -/
theorem C10_witness :
    ppFilter 24 80 ppResetState ([0x1b, 0x5b] ++ [0x3f, 0x32, 0x35] ++ [0x48]) =
      (ppResetState, [0x1b, 0x5b] ++ [0x3f, 0x32, 0x35] ++ [0x48]) :=
  C10_amended 24 80 [0x3f, 0x32, 0x35] (by decide) (by decide)
    (Or.inl (by decide))

/-- C10 counterexample: an H-terminated sequence with 63 unparseable
parameter bytes overflows the scratch buffer, so the filter emits only the
leaked final byte rather than passing the whole sequence through. -/
theorem C10_counterexample :
    ((List.replicate 63 0x3a).all isCsiParameterByte = true) ∧
    parseCursorPosition (List.replicate 63 0x3a) = none ∧
    (ppFilter 24 80 ppResetState
      ([0x1b, 0x5b] ++ List.replicate 63 0x3a ++ [0x48])).2 = [0x48] ∧
    ([0x48] : List Nat) ≠ [0x1b, 0x5b] ++ List.replicate 63 0x3a ++ [0x48] := by
  refine ⟨by decide, by decide, by decide, by decide⟩

/-! Step lemmas for the translate loop. -/

theorem acsGo_nil (st : AcsState) : acsGo st [] = ⟨st, [], []⟩ := by
  simp [acsGo]

theorem acsGo_esc1 (st : AcsState) : acsGo st [0x1b] = ⟨st, [], [0x1b]⟩ := by
  simp [acsGo]

theorem acsGo_esc2 (st : AcsState) :
    acsGo st [0x1b, 0x28] = ⟨st, [], [0x1b, 0x28]⟩ := by
  simp [acsGo]

theorem acsGo_enter (st : AcsState) (r : List Nat) :
    acsGo st (0x1b :: 0x28 :: 0x30 :: r) = acsGo AcsState.acsMode r := by
  simp [acsGo]

theorem acsGo_exit (st : AcsState) (r : List Nat) :
    acsGo st (0x1b :: 0x28 :: 0x42 :: r) = acsGo AcsState.normal r := by
  simp [acsGo]

theorem acsGo_cons_ne (st : AcsState) (b : Nat) (rest : List Nat)
    (hb : b ≠ 0x1b) :
    acsGo st (b :: rest) =
      ⟨(acsGo st rest).st, acsProcByte st b ++ (acsGo st rest).out,
        (acsGo st rest).buf⟩ := by
  rw [acsGo]
  all_goals (intros; omega)

theorem acsGo_esc_other (st : AcsState) (c : Nat) (rest2 : List Nat)
    (hc : c ≠ 0x28) :
    acsGo st (0x1b :: c :: rest2) =
      ⟨(acsGo st (c :: rest2)).st,
        acsProcByte st 0x1b ++ (acsGo st (c :: rest2)).out,
        (acsGo st (c :: rest2)).buf⟩ := by
  rw [acsGo]
  all_goals (intros; simp_all)

theorem acsGo_esc_paren_other (st : AcsState) (d : Nat) (r : List Nat)
    (hd1 : d ≠ 0x30) (hd2 : d ≠ 0x42) :
    acsGo st (0x1b :: 0x28 :: d :: r) =
      ⟨(acsGo st (0x28 :: d :: r)).st,
        acsProcByte st 0x1b ++ (acsGo st (0x28 :: d :: r)).out,
        (acsGo st (0x28 :: d :: r)).buf⟩ := by
  rw [acsGo]
  all_goals (intros; simp_all)

/-- Composition of the translate loop over an arbitrary cut: running on the
concatenation equals running on the first part, then running again on the
leftover carry buffer followed by the second part. -/
theorem acsGo_append_aux :
    ∀ (n : Nat) (x : List Nat), x.length ≤ n → ∀ (st : AcsState) (y : List Nat),
      acsGo st (x ++ y) =
        ⟨(acsGo (acsGo st x).st ((acsGo st x).buf ++ y)).st,
          (acsGo st x).out ++ (acsGo (acsGo st x).st ((acsGo st x).buf ++ y)).out,
          (acsGo (acsGo st x).st ((acsGo st x).buf ++ y)).buf⟩ := by
  intro n
  induction n with
  | zero =>
    intro x hx st y
    have hx0 : x = [] := by
      cases x with
      | nil => rfl
      | cons a t => simp at hx
    subst hx0
    simp [acsGo_nil]
  | succ n ih =>
    intro x hx st y
    cases x with
    | nil => simp [acsGo_nil]
    | cons b rest =>
      by_cases hb : b = 0x1b
      · subst hb
        cases rest with
        | nil => simp [acsGo_esc1]
        | cons c rest2 =>
          by_cases hc : c = 0x28
          · subst hc
            cases rest2 with
            | nil => simp [acsGo_esc2]
            | cons d r =>
              by_cases hd0 : d = 0x30
              · subst hd0
                rw [show ((0x1b :: 0x28 :: 0x30 :: r) ++ y : List Nat) =
                    0x1b :: 0x28 :: 0x30 :: (r ++ y) from rfl]
                rw [acsGo_enter, acsGo_enter]
                exact ih r (by simp at hx; omega) AcsState.acsMode y
              · by_cases hd1 : d = 0x42
                · subst hd1
                  rw [show ((0x1b :: 0x28 :: 0x42 :: r) ++ y : List Nat) =
                      0x1b :: 0x28 :: 0x42 :: (r ++ y) from rfl]
                  rw [acsGo_exit, acsGo_exit]
                  exact ih r (by simp at hx; omega) AcsState.normal y
                · rw [show ((0x1b :: 0x28 :: d :: r) ++ y : List Nat) =
                      0x1b :: 0x28 :: d :: (r ++ y) from rfl]
                  rw [acsGo_esc_paren_other st d (r ++ y) hd0 hd1,
                    acsGo_esc_paren_other st d r hd0 hd1]
                  have hih := ih (0x28 :: d :: r) (by simp at hx ⊢; omega) st y
                  rw [show ((0x28 :: d :: r) ++ y : List Nat) =
                      0x28 :: d :: (r ++ y) from rfl] at hih
                  rw [hih]
                  simp
          · rw [show ((0x1b :: c :: rest2) ++ y : List Nat) =
                0x1b :: c :: (rest2 ++ y) from rfl]
            rw [acsGo_esc_other st c (rest2 ++ y) hc,
              acsGo_esc_other st c rest2 hc]
            have hih := ih (c :: rest2) (by simp at hx ⊢; omega) st y
            rw [show ((c :: rest2) ++ y : List Nat) = c :: (rest2 ++ y) from rfl]
              at hih
            rw [hih]
            simp
      · rw [show ((b :: rest) ++ y : List Nat) = b :: (rest ++ y) from rfl]
        rw [acsGo_cons_ne st b (rest ++ y) hb, acsGo_cons_ne st b rest hb]
        have hih := ih rest (by simp at hx; omega) st y
        rw [hih]
        simp

theorem acsGo_append (x : List Nat) (st : AcsState) (y : List Nat) :
    acsGo st (x ++ y) =
      ⟨(acsGo (acsGo st x).st ((acsGo st x).buf ++ y)).st,
        (acsGo st x).out ++ (acsGo (acsGo st x).st ((acsGo st x).buf ++ y)).out,
        (acsGo (acsGo st x).st ((acsGo st x).buf ++ y)).buf⟩ :=
  acsGo_append_aux x.length x le_rfl st y

theorem translate_append (t : ACSTranslator) (a b : List Nat) :
    translate t (a ++ b) =
      ((translate (translate t a).1 b).1,
        (translate t a).2 ++ (translate (translate t a).1 b).2) := by
  unfold translate
  dsimp only
  rw [show t.buffer ++ (a ++ b) = (t.buffer ++ a) ++ b by simp]
  rw [acsGo_append (t.buffer ++ a) t.state b]

/-- The carry buffer left by the loop is always empty, a lone ESC, or ESC (. -/
theorem acsGo_buf_cases :
    ∀ (n : Nat) (x : List Nat), x.length ≤ n → ∀ st : AcsState,
      (acsGo st x).buf = [] ∨ (acsGo st x).buf = [0x1b] ∨
        (acsGo st x).buf = [0x1b, 0x28] := by
  intro n
  induction n with
  | zero =>
    intro x hx st
    have hx0 : x = [] := by
      cases x with
      | nil => rfl
      | cons a t => simp at hx
    subst hx0
    simp [acsGo_nil]
  | succ n ih =>
    intro x hx st
    cases x with
    | nil => simp [acsGo_nil]
    | cons b rest =>
      by_cases hb : b = 0x1b
      · subst hb
        cases rest with
        | nil => simp [acsGo_esc1]
        | cons c rest2 =>
          by_cases hc : c = 0x28
          · subst hc
            cases rest2 with
            | nil => simp [acsGo_esc2]
            | cons d r =>
              by_cases hd0 : d = 0x30
              · subst hd0
                rw [acsGo_enter]
                exact ih r (by simp at hx; omega) AcsState.acsMode
              · by_cases hd1 : d = 0x42
                · subst hd1
                  rw [acsGo_exit]
                  exact ih r (by simp at hx; omega) AcsState.normal
                · rw [acsGo_esc_paren_other st d r hd0 hd1]
                  exact ih (0x28 :: d :: r) (by simp at hx ⊢; omega) st
          · rw [acsGo_esc_other st c rest2 hc]
            exact ih (c :: rest2) (by simp at hx ⊢; omega) st
      · rw [acsGo_cons_ne st b rest hb]
        exact ih rest (by simp at hx; omega) st

theorem translate_nil_of_buf (t : ACSTranslator)
    (hb : t.buffer = [] ∨ t.buffer = [0x1b] ∨ t.buffer = [0x1b, 0x28]) :
    translate t [] = (t, []) := by
  obtain ⟨st, buf⟩ := t
  rcases hb with h | h | h <;> subst h <;>
    simp [translate, acsGo_nil, acsGo_esc1, acsGo_esc2]

theorem translate_buf_cases (t : ACSTranslator) (input : List Nat) :
    (translate t input).1.buffer = [] ∨
      (translate t input).1.buffer = [0x1b] ∨
      (translate t input).1.buffer = [0x1b, 0x28] := by
  unfold translate
  dsimp only
  exact acsGo_buf_cases (t.buffer ++ input).length _ le_rfl t.state

theorem translateFeed_eq (cs : List (List Nat)) :
    ∀ t : ACSTranslator,
      t.buffer = [] ∨ t.buffer = [0x1b] ∨ t.buffer = [0x1b, 0x28] →
      translateFeed t cs = translate t cs.flatten := by
  induction cs with
  | nil =>
    intro t ht
    rw [show (([] : List (List Nat)).flatten) = [] from rfl,
      translate_nil_of_buf t ht]
    rfl
  | cons c cs ih =>
    intro t ht
    rw [show ((c :: cs).flatten) = c ++ cs.flatten from rfl, translate_append]
    simp only [translateFeed]
    rw [ih (translate t c).1 (translate_buf_cases t c)]

/-! Lemmas for the translator on sequence-free and fully mapped input. -/

theorem seqOccurs_tail (pat : List Nat) (b : Nat) (rest : List Nat)
    (h : seqOccurs pat (b :: rest) = false) : seqOccurs pat rest = false := by
  simp only [seqOccurs, Bool.or_eq_false_iff] at h
  exact h.2

theorem acsGo_normal_plain :
    ∀ (n : Nat) (s : List Nat), s.length ≤ n →
      seqOccurs ACS_ENTER_SEQ s = false → seqOccurs ACS_EXIT_SEQ s = false →
      (acsGo AcsState.normal s).st = AcsState.normal ∧
      (acsGo AcsState.normal s).out ++ (acsGo AcsState.normal s).buf = s := by
  intro n
  induction n with
  | zero =>
    intro s hs _ _
    have hs0 : s = [] := by
      cases s with
      | nil => rfl
      | cons a t => simp at hs
    subst hs0
    simp [acsGo_nil]
  | succ n ih =>
    intro s hs h1 h2
    cases s with
    | nil => simp [acsGo_nil]
    | cons b rest =>
      by_cases hb : b = 0x1b
      · subst hb
        cases rest with
        | nil => simp [acsGo_esc1]
        | cons c rest2 =>
          by_cases hc : c = 0x28
          · subst hc
            cases rest2 with
            | nil => simp [acsGo_esc2]
            | cons d r =>
              by_cases hd0 : d = 0x30
              · subst hd0
                exfalso
                simp [seqOccurs, ACS_ENTER_SEQ, List.isPrefixOf] at h1
              · by_cases hd1 : d = 0x42
                · subst hd1
                  exfalso
                  simp [seqOccurs, ACS_EXIT_SEQ, List.isPrefixOf] at h2
                · rw [acsGo_esc_paren_other AcsState.normal d r hd0 hd1]
                  have hih := ih (0x28 :: d :: r) (by simp at hs ⊢; omega)
                    (seqOccurs_tail _ _ _ h1) (seqOccurs_tail _ _ _ h2)
                  refine ⟨hih.1, ?_⟩
                  simp [acsProcByte, List.append_assoc, hih.2]
          · rw [acsGo_esc_other AcsState.normal c rest2 hc]
            have hih := ih (c :: rest2) (by simp at hs ⊢; omega)
              (seqOccurs_tail _ _ _ h1) (seqOccurs_tail _ _ _ h2)
            refine ⟨hih.1, ?_⟩
            simp [acsProcByte, List.append_assoc, hih.2]
      · rw [acsGo_cons_ne AcsState.normal b rest hb]
        have hih := ih rest (by simp at hs; omega)
          (seqOccurs_tail _ _ _ h1) (seqOccurs_tail _ _ _ h2)
        refine ⟨hih.1, ?_⟩
        simp [acsProcByte, List.append_assoc, hih.2]

theorem endsWith_append (pat a : List Nat) : endsWith pat (a ++ pat) = true := by
  simp only [endsWith, decide_eq_true_eq]
  rw [show (a ++ pat).length - pat.length = a.length by simp]
  exact List.drop_left a pat

theorem acsGo_acsRun (mid : List Nat)
    (hmid : mid.all (fun b => (acsTable.lookup b).isSome) = true) :
    acsGo AcsState.acsMode (mid ++ ACS_EXIT_SEQ) =
      ⟨AcsState.normal, acsMapped mid, []⟩ := by
  induction mid with
  | nil =>
    rw [show (([] : List Nat) ++ ACS_EXIT_SEQ) = 0x1b :: 0x28 :: 0x42 :: []
      from rfl]
    rw [acsGo_exit]
    simp [acsGo_nil, acsMapped]
  | cons b bs ih =>
    simp only [List.all_cons, Bool.and_eq_true] at hmid
    have hbne : b ≠ 0x1b := by
      intro hb
      subst hb
      rw [show acsTable.lookup (0x1b : Nat) = none from by decide] at hmid
      simp at hmid
    rw [show ((b :: bs) ++ ACS_EXIT_SEQ : List Nat) = b :: (bs ++ ACS_EXIT_SEQ)
      from rfl]
    rw [acsGo_cons_ne AcsState.acsMode b _ hbne, ih hmid.2]
    obtain ⟨cp, hcp⟩ := Option.isSome_iff_exists.mp hmid.1
    simp [acsProcByte, acsMapped, hcp]

/-- C4 (amended): on an internal error, translate returns the carry buffer
prepended to the input, unmodified, and leaves the carry buffer empty; it
performs no reset, so the mode keeps whatever value the partial processing
set rather than returning to Normal, and when a carry byte was pending the
returned bytes differ from the call's own input. -/
theorem C4_amended :
    ∀ (t : ACSTranslator) (input : List Nat) (k : Nat),
      (translateExc t input k).2 = t.buffer ++ input ∧
      (translateExc t input k).1.buffer = [] := by
  intro t input k
  exact ⟨rfl, rfl⟩

/-- C4 counterexample: an error injected right after the enter sequence has
switched the mode leaves the translator in ACS mode, not Normal, and with a
pending carry byte the returned data is not the original input, refuting the
claim that translate resets as reset() does and returns the input. -/
theorem C4_counterexample :
    (translateExc acsReset [0x1b, 0x28, 0x30, 0x71] 1).1.state =
      AcsState.acsMode ∧
    AcsState.acsMode ≠ AcsState.normal ∧
    (translateExc ⟨AcsState.normal, [0x1b]⟩ [0x28, 0x58] 0).2 =
      [0x1b, 0x28, 0x58] ∧
    ([0x1b, 0x28, 0x58] : List Nat) ≠ [0x28, 0x58] := by
  refine ⟨by decide, by decide, by decide, by decide⟩

/-- C5 (amended): for every byte string consisting of the ACS enter sequence,
middle bytes that all have entries in the 32-entry graphics table, and the
exit sequence, and for every split of that concatenation into chunks fed to
successive translate calls on a freshly reset translator, the concatenated
output is the UTF-8 encoding of the Unicode mapping of the middle bytes, the
enter and exit sequences are consumed, and the translator ends reset; the
table has 32 entries, not 33 as the claim stated. -/
theorem C5_amended (mid : List Nat) (chunks : List (List Nat))
    (hmid : mid.all (fun b => (acsTable.lookup b).isSome) = true)
    (hjoin : chunks.flatten = ACS_ENTER_SEQ ++ mid ++ ACS_EXIT_SEQ) :
    (translateFeed acsReset chunks).2 = acsMapped mid ∧
    (translateFeed acsReset chunks).1 = acsReset := by
  rw [translateFeed_eq chunks acsReset (Or.inl rfl), hjoin]
  have hrun : acsGo AcsState.normal (ACS_ENTER_SEQ ++ mid ++ ACS_EXIT_SEQ) =
      ⟨AcsState.normal, acsMapped mid, []⟩ := by
    rw [show (ACS_ENTER_SEQ ++ mid ++ ACS_EXIT_SEQ : List Nat) =
        0x1b :: 0x28 :: 0x30 :: (mid ++ ACS_EXIT_SEQ) by simp [ACS_ENTER_SEQ]]
    rw [acsGo_enter]
    exact acsGo_acsRun mid hmid
  constructor
  · show (acsGo acsReset.state
      (acsReset.buffer ++ (ACS_ENTER_SEQ ++ mid ++ ACS_EXIT_SEQ))).out = _
    rw [show acsReset.buffer ++ (ACS_ENTER_SEQ ++ mid ++ ACS_EXIT_SEQ) =
        ACS_ENTER_SEQ ++ mid ++ ACS_EXIT_SEQ from by simp [acsReset]]
    rw [show acsReset.state = AcsState.normal from rfl, hrun]
  · show (⟨(acsGo acsReset.state
      (acsReset.buffer ++ (ACS_ENTER_SEQ ++ mid ++ ACS_EXIT_SEQ))).st,
      (acsGo acsReset.state
        (acsReset.buffer ++ (ACS_ENTER_SEQ ++ mid ++ ACS_EXIT_SEQ))).buf⟩ :
      ACSTranslator) = acsReset
    rw [show acsReset.buffer ++ (ACS_ENTER_SEQ ++ mid ++ ACS_EXIT_SEQ) =
        ACS_ENTER_SEQ ++ mid ++ ACS_EXIT_SEQ from by simp [acsReset]]
    rw [show acsReset.state = AcsState.normal from rfl, hrun]
    rfl

/-- C5 witness: a concrete corner-line-corner run split unevenly across four
translate calls produces exactly the UTF-8 box characters. -/
theorem C5_witness :
    (([0x6c, 0x71, 0x6b] : List Nat).all
      (fun b => (acsTable.lookup b).isSome) = true) ∧
    (([[0x1b], [0x28, 0x30, 0x6c], [0x71, 0x6b, 0x1b, 0x28], [0x42]] :
      List (List Nat)).flatten =
      ACS_ENTER_SEQ ++ [0x6c, 0x71, 0x6b] ++ ACS_EXIT_SEQ) ∧
    (translateFeed acsReset
      [[0x1b], [0x28, 0x30, 0x6c], [0x71, 0x6b, 0x1b, 0x28], [0x42]]).2 =
      acsMapped [0x6c, 0x71, 0x6b] :=
  ⟨by decide, by decide, (C5_amended _ _ (by decide) (by decide)).1⟩

/-- C5 counterexample: the graphics table built by the translator has 32
entries, so the claim's description of it as the 33-entry table is false of
the code. -/
theorem C5_counterexample : acsTable.length = 32 ∧ acsTable.length ≠ 33 := by
  refine ⟨by decide, by decide⟩

/-- C6 (amended): on input with no enter and no exit sequence, a freshly
reset translator stays in Normal mode and loses nothing: output plus carry
buffer reproduce the input exactly, and the output equals the input whenever
the input does not end in a partial sequence (a trailing ESC or ESC-left-
parenthesis, which is withheld in the carry buffer rather than returned), so
the unamended return-input-unchanged claim fails on those tails. -/
theorem C6_amended (s : List Nat)
    (h1 : seqOccurs ACS_ENTER_SEQ s = false)
    (h2 : seqOccurs ACS_EXIT_SEQ s = false) :
    (translate acsReset s).1.state = AcsState.normal ∧
    (translate acsReset s).2 ++ (translate acsReset s).1.buffer = s ∧
    (endsWith [0x1b] s = false → endsWith [0x1b, 0x28] s = false →
      (translate acsReset s).2 = s) := by
  have hmain := acsGo_normal_plain s.length s le_rfl h1 h2
  have hbuf := acsGo_buf_cases s.length s le_rfl AcsState.normal
  have hshape : translate acsReset s =
      (⟨(acsGo AcsState.normal s).st, (acsGo AcsState.normal s).buf⟩,
        (acsGo AcsState.normal s).out) := by
    simp [translate, acsReset]
  rw [hshape]
  refine ⟨hmain.1, hmain.2, ?_⟩
  intro he1 he2
  rcases hbuf with hb | hb | hb
  · rw [hb] at hmain
    simpa using hmain.2
  · exfalso
    rw [hb] at hmain
    rw [← hmain.2, endsWith_append] at he1
    cases he1
  · exfalso
    rw [hb] at hmain
    rw [← hmain.2, endsWith_append] at he2
    cases he2

/-- C6 witness: plain text with no sequences passes through translate
unchanged. -/
theorem C6_witness :
    seqOccurs ACS_ENTER_SEQ [0x68, 0x69] = false ∧
    seqOccurs ACS_EXIT_SEQ [0x68, 0x69] = false ∧
    (translate acsReset [0x68, 0x69]).2 = [0x68, 0x69] :=
  ⟨by decide, by decide,
    (C6_amended [0x68, 0x69] (by decide) (by decide)).2.2 (by decide) (by decide)⟩

/-- C6 counterexample: a chunk consisting of a single ESC contains no enter
or exit sequence, yet translate returns empty output (the ESC is withheld in
the carry buffer), refuting the identity claim as stated. -/
theorem C6_counterexample :
    seqOccurs ACS_ENTER_SEQ [0x1b] = false ∧
    seqOccurs ACS_EXIT_SEQ [0x1b] = false ∧
    (translate acsReset [0x1b]).2 = [] ∧
    ([] : List Nat) ≠ [0x1b] := by
  refine ⟨by decide, by decide, ?_, by decide⟩
  simp [translate, acsReset, acsGo_esc1]

/-- C2 (amended): selecting Resume after opening the control menu from a
hidden state always sets the mode to SerialConsole, because the resume
handler assigns MODE_SERIAL_CONSOLE unconditionally; the menu ends hidden
with its result consumed and no exit requested, and the pre-menu mode is
preserved exactly when it already was SerialConsole, not for both modes as
the claim stated. -/
theorem C2_amended :
    ∀ m : Mode,
      (resumeFlow m).mode = Mode.serialConsole ∧
      ((resumeFlow m).mode = m ↔ m = Mode.serialConsole) ∧
      (resumeFlow m).menu.is_visible = false ∧
      (resumeFlow m).menu.result = none ∧
      (resumeFlow m).exited = false := by
  intro m
  cases m <;> exact ⟨rfl, by decide, rfl, rfl, rfl⟩

/-- C2 counterexample: opening the menu while in the monitor mode and
selecting Resume switches the session to SerialConsole instead of restoring
the pre-menu mode, refuting the mode-unchanged claim. -/
theorem C2_counterexample :
    (resumeFlow Mode.qemuMonitor).mode = Mode.serialConsole ∧
    Mode.serialConsole ≠ Mode.qemuMonitor := by
  refine ⟨by decide, by decide⟩

/-- C8: in text-console mode the process exit code is the child return code
with None or zero mapped to 0 when the session ends normally, 130 on a
KeyboardInterrupt before the child exits, and 1 when the PTY device is not
found within the bounded wait; failing to connect to the control socket only
sets the warning flag and never changes the exit code. -/
theorem C8_exit_codes :
    (∀ (m a : Bool) (rc : Option Int), runQemuText true false m a rc = rc.getD 0) ∧
    (∀ m a : Bool, runQemuText true false m a none = 0 ∧
      runQemuText true false m a (some 0) = 0) ∧
    (∀ (m a : Bool) (rc : Option Int), runQemuText true true m a rc = 130) ∧
    (∀ (i m a : Bool) (rc : Option Int), runQemuText false i m a rc = 1) ∧
    ((connectToMonitor false).2 = true ∧ (connectToMonitor false).1 = none) ∧
    (∀ (p i a : Bool) (rc : Option Int),
      runQemuText p i true a rc = runQemuText p i false a rc) := by
  refine ⟨?_, ?_, ?_, ?_, ⟨rfl, rfl⟩, ?_⟩
  · intro m a rc; rfl
  · intro m a; exact ⟨rfl, rfl⟩
  · intro m a rc; rfl
  · intro i m a rc; rfl
  · intro p i a rc
    cases p <;> cases i <;> rfl

end RunQemuVm
